import Mathlib

/-!
# Verification of the GradCafe acquisition-and-normalization pipeline

Shallow embedding of the core of the `jhu_software_concepts` repository
(modules 4 and 5): the survey row classifier (`scrape.py`), the crawl
controller (`app.py` / `scrape.py`), the name standardizer
(`llm_standardizer.py`), the robots policy checker (`robots_checker.py`),
and the ingestion writer plus cleanup passes (`app.py`, `load_data.py`,
`cleanup_data.py`).

Conventions of the embedding:
* Python strings are modelled as `Str := List Char`; the repository's data
  is ASCII, so Python's `str.lower` / `str.title` coincide with the
  character-wise ASCII maps used here.
* Python `float` columns (`REAL` in the schema) are modelled as `ℚ`;
  the pipeline only ever produces finite decimal literals.
* External effectful boundaries (the network fetch, the SQL engine, the
  llama.cpp inference call) are modelled by explicit parameters or
  `Except`/`Option` results, mirroring exactly which exceptions the Python
  code catches and which it lets propagate.
-/

set_option autoImplicit false

namespace GradCafe

/-- Python strings, modelled as lists of characters. -/
abbrev Str := List Char

/-- Python `\s` whitespace class (ASCII range, which is all the pipeline sees). -/
def isPyWs (c : Char) : Bool :=
  c = ' ' || c = '\t' || c = '\n' || c = '\x0d' || c = '\x0b' || c = '\x0c'

/-- Python `str.lower` (character-wise; ASCII). -/
def lowerStr (s : Str) : Str := s.map Char.toLower

/-- Python `str.strip()`: drop leading and trailing whitespace. -/
def pyStrip (s : Str) : Str :=
  ((s.dropWhile (isPyWs ·)).reverse.dropWhile (isPyWs ·)).reverse

/-- Python `str.strip(",")`: drop leading and trailing commas. -/
def stripCommas (s : Str) : Str :=
  ((s.dropWhile (· = ',')).reverse.dropWhile (· = ',')).reverse

/-- Python `str.startswith` / prefix test, as a Bool. -/
def strStarts (p s : Str) : Bool := p.isPrefixOf s

/-- Substring containment (`needle in haystack` in Python, `re.search` of a
literal pattern). -/
def containsSub (needle s : Str) : Bool :=
  (List.range (s.length + 1)).any fun i => needle.isPrefixOf (s.drop i)

/-- `" ".join(parts)` (in general: `sep.join(parts)`). -/
def joinSep (sep : Str) : List Str → Str
  | [] => []
  | [x] => x
  | x :: xs => x ++ sep ++ joinSep sep xs

/-- `" ".join(parts)`. -/
def joinSpace (l : List Str) : Str := joinSep [' '] l

/-- Python `str.split(sep)` for a non-empty literal separator: greedy
left-to-right scan, no collapsing of adjacent separators, `"".split(sep) = [""]`. -/
def pySplitAux (sep : Str) : Nat → Str → Str → List Str
  | 0, acc, rest => [acc.reverse ++ rest]
  | fuel + 1, acc, rest =>
    if sep.isPrefixOf rest ∧ sep ≠ [] then
      acc.reverse :: pySplitAux sep fuel [] (rest.drop sep.length)
    else
      match rest with
      | [] => [acc.reverse]
      | c :: cs => pySplitAux sep fuel (c :: acc) cs

/-- Python `str.split(sep)` with a literal separator. -/
def pySplit (sep s : Str) : List Str := pySplitAux sep (s.length + 1) [] s

/-- Python `str.replace(old, new)` (all occurrences, left to right),
for a non-empty `old`. -/
def pyReplaceAux (old new : Str) : Nat → Str → Str
  | 0, rest => rest
  | fuel + 1, rest =>
    if old.isPrefixOf rest ∧ old ≠ [] then
      new ++ pyReplaceAux old new fuel (rest.drop old.length)
    else
      match rest with
      | [] => []
      | c :: cs => c :: pyReplaceAux old new fuel cs

/-- Python `str.replace(old, new)` (all occurrences). -/
def pyReplace (old new s : Str) : Str := pyReplaceAux old new (s.length + 1) s

/-- Python `str.replace(old, new, 1)` (first occurrence only). -/
def pyReplaceFirst (old new s : Str) : Str :=
  match (List.range (s.length + 1)).find? (fun i => old.isPrefixOf (s.drop i) ∧ old ≠ []) with
  | some i => s.take i ++ new ++ s.drop (i + old.length)
  | none => s

/-- Python word character (`\w`, ASCII): letter, digit or underscore. -/
def isWordChar (c : Char) : Bool := c.isAlphanum || c = '_'

/-- `re.sub(r"\s+", " ", s)`: collapse each whitespace run to one space.
The flag records whether the previous character was whitespace. -/
def collapseWsAux : Bool → Str → Str
  | _, [] => []
  | inWs, c :: cs =>
    if isPyWs c then
      if inWs then collapseWsAux true cs else ' ' :: collapseWsAux true cs
    else c :: collapseWsAux false cs

/-- `re.sub(r"\s+", " ", s)`. -/
def collapseWs (s : Str) : Str := collapseWsAux false s

/-! ## Robots policy checker (`module_5/src/robots_checker.py`)

`RobotsChecker.__init__` stores the `crawl_delay` directive parsed from
robots.txt (`None` when absent or the fetch failed); `get_crawl_delay`
returns it, or the supplied default.  Delays are numeric; modelled as `ℚ`. -/

/-- `RobotsChecker.get_crawl_delay`:
`return self.crawl_delay if self.crawl_delay is not None else default`. -/
def get_crawl_delay (crawlDelay : Option ℚ) (default : ℚ) : ℚ :=
  match crawlDelay with
  | some d => d
  | none => default

/-- The delay-adoption step of `scrape.scrape_data` (lines 284-289):
```
robots_delay = robots.get_crawl_delay(delay)
if robots_delay != delay:
    delay = robots_delay
```
-/
def adoptedDelay (crawlDelay : Option ℚ) (requested : ℚ) : ℚ :=
  let robotsDelay := get_crawl_delay crawlDelay requested
  if robotsDelay ≠ requested then robotsDelay else requested

/-! ## Persisted rows and the cleanup passes (`cleanup_data.py`) -/

/-- A parsed calendar date (result of `datetime.strptime(...).date()`). -/
structure PDate where
  year : Nat
  month : Nat
  day : Nat
  deriving DecidableEq, Repr

/-- One row of the `applicants` table, in the shape built by
`load_data.main` / `app.insert_row` (`url` is `TEXT UNIQUE`; the four
score columns are `REAL`, nullable). -/
structure AppRow where
  program : Str
  comments : Str
  dateAdded : Option PDate
  url : Str
  status : Str
  term : Str
  usOrInternational : Str
  gpa : Option ℚ
  gre : Option ℚ
  greV : Option ℚ
  greAw : Option ℚ
  degree : Str
  llmGeneratedProgram : Str
  llmGeneratedUniversity : Str
  deriving DecidableEq, Repr

/-- `cleanup_data.fix_gre_aw`: count the rows with `gre_aw > 6`
(`SELECT COUNT(*) FROM applicants WHERE gre_aw > 6`; a SQL comparison
against NULL is not true, hence the `Option.any`), then
`UPDATE applicants SET gre_aw = NULL WHERE gre_aw > 6`, and return the
count.  The table is modelled as the list of its rows. -/
def fix_gre_aw (db : List AppRow) : List AppRow × Nat :=
  let greAwMax : ℚ := 6
  let bad : AppRow → Bool := fun r => r.greAw.any (fun v => greAwMax < v)
  let count := db.countP bad
  let db' := db.map fun r => if bad r then { r with greAw := none } else r
  (db', count)

/-! ## Ingestion writer (`app.insert_row`, `load_data.main`)

`insert_row` normalizes the scraped fields, then executes
`INSERT INTO applicants (...) VALUES (...) ON CONFLICT (url) DO NOTHING`
and reports `cur.rowcount > 0`.  The SQL semantics of the unique `url`
column is modelled directly: if some stored row already has the same
(normalized) url, nothing is written; otherwise the new row is appended. -/

/-- `load_data.clean_text`: strip NUL bytes. -/
def clean_text (s : Str) : Str := s.filter (fun c => c ≠ Char.ofNat 0)

/-- Numeric value of a digit string. -/
def digitsVal (ds : Str) : Nat := ds.foldl (fun n c => n * 10 + (c.toNat - '0'.toNat)) 0

/-- Python `float(s)` on an already-stripped string: optional sign, then
`d+[.d*]` or `.d+`, then an optional exponent; the whole string must be
consumed.  (The non-finite literals `inf`/`nan` and digit-group
underscores never occur in this pipeline and are outside the model.) -/
def pyFloat (s : Str) : Option ℚ :=
  let (sign, s1) : ℚ × Str :=
    match s with
    | '-' :: t => (-1, t)
    | '+' :: t => (1, t)
    | t => (1, t)
  let ip := s1.takeWhile (·.isDigit)
  let s2 := s1.drop ip.length
  let mant : Option (ℚ × Str) :=
    match s2 with
    | '.' :: t =>
      let fp := t.takeWhile (·.isDigit)
      if ip = [] ∧ fp = [] then none
      else some ((digitsVal ip : ℚ) + (digitsVal fp : ℚ) / ((10 : ℚ) ^ fp.length),
                 t.drop fp.length)
    | t => if ip = [] then none else some ((digitsVal ip : ℚ), t)
  match mant with
  | none => none
  | some (m, s3) =>
    match s3 with
    | [] => some (sign * m)
    | e :: t =>
      if e = 'e' ∨ e = 'E' then
        let (esign, t1) : Bool × Str :=
          match t with
          | '-' :: u => (true, u)
          | '+' :: u => (false, u)
          | u => (false, u)
        let ed := t1.takeWhile (·.isDigit)
        if ed = [] ∨ t1.drop ed.length ≠ [] then none
        else
          let p : ℚ := (10 : ℚ) ^ digitsVal ed
          some (sign * (if esign then m / p else m * p))
      else none

/-- `load_data.parse_float` / the score normalization in `app.insert_row`:
`s = (value or "").replace(prefix, "", 1).strip(); float(s) if s else None`,
with a `ValueError` turned into `None`. -/
def parse_float (pre value : Str) : Option ℚ :=
  let s := pyStrip (pyReplaceFirst pre [] value)
  if s = [] then none else pyFloat s

/-- Lowercased English month names, January = 1. -/
def monthNames : List Str :=
  ["january".data, "february".data, "march".data, "april".data, "may".data,
   "june".data, "july".data, "august".data, "september".data, "october".data,
   "november".data, "december".data]

/-- Days in a month (Gregorian). -/
def daysInMonth (year month : Nat) : Nat :=
  if month = 2 then
    if year % 4 = 0 ∧ (year % 100 ≠ 0 ∨ year % 400 = 0) then 29 else 28
  else if month ∈ [4, 6, 9, 11] then 30 else 31

/-- `%B`: case-insensitive full month name; returns (month, rest). -/
def parseMonthName (s : Str) : Option (Nat × Str) :=
  match (List.range 12).find? (fun i =>
      (monthNames.getD i []).isPrefixOf (lowerStr s)) with
  | some i => some (i + 1, s.drop (monthNames.getD i []).length)
  | none => none

/-- One-or-more whitespace (a literal space in an strptime format matches `\s+`). -/
def parseWs1 (s : Str) : Option Str :=
  let w := s.takeWhile (isPyWs ·)
  if w = [] then none else some (s.drop w.length)

/-- `%d`: the strptime day regex `3[01]|[12]\d|0[1-9]|[1-9]| [1-9]`,
alternatives tried in that order. -/
def parseDay (s : Str) : Option (Nat × Str) :=
  match s with
  | '3' :: '0' :: t => some (30, t)
  | '3' :: '1' :: t => some (31, t)
  | c :: d :: t =>
    if (c = '1' ∨ c = '2') ∧ d.isDigit then
      some ((c.toNat - '0'.toNat) * 10 + (d.toNat - '0'.toNat), t)
    else if c = '0' ∧ d.isDigit ∧ d ≠ '0' then some (d.toNat - '0'.toNat, t)
    else if c.isDigit ∧ c ≠ '0' then some (c.toNat - '0'.toNat, d :: t)
    else if c = ' ' ∧ d.isDigit ∧ d ≠ '0' then some (d.toNat - '0'.toNat, t)
    else none
  | [c] => if c.isDigit ∧ c ≠ '0' then some (c.toNat - '0'.toNat, []) else none
  | [] => none

/-- `datetime.strptime(s, "%B %d, %Y").date()`: month name, whitespace,
day, comma, whitespace, four-digit year, end of input; then the calendar
validity check performed by `datetime`. -/
def strptimeBdY (s : Str) : Option PDate :=
  match parseMonthName s with
  | none => none
  | some (m, s1) =>
    match parseWs1 s1 with
    | none => none
    | some s2 =>
      match parseDay s2 with
      | none => none
      | some (d, s3) =>
        match s3 with
        | ',' :: s4 =>
          match parseWs1 s4 with
          | none => none
          | some s5 =>
            let ys := s5.take 4
            if ys.length = 4 ∧ ys.all (·.isDigit) ∧ s5.drop 4 = [] then
              let y := digitsVal ys
              if 1 ≤ d ∧ d ≤ daysInMonth y m then
                some ⟨y, m, d⟩
              else none
            else none
        | _ => none

/-- The row dictionary as `app.insert_row` consumes it: the scraped record
with its comment list already joined to one string by `pull_data`.
`none` models a key the classifier never set (`row.get(k, "")` then
yields `""`). -/
structure InsRow where
  program : Str
  comments : Str
  dateAdded : Str
  url : Option Str
  status : Str
  term : Option Str
  usOrInternational : Option Str
  gpa : Str
  gre : Str
  greV : Str
  greAw : Str
  degree : Option Str
  deriving DecidableEq, Repr

/-- The normalized parameter record `app.insert_row` binds into its
`INSERT` statement (`llm_program` / `llm_university` are hard-coded `""`). -/
def insertParams (row : InsRow) : AppRow :=
  let dateStr := pyReplace "Added on ".data [] (clean_text row.dateAdded)
  { program := clean_text row.program
    comments := clean_text row.comments
    dateAdded := strptimeBdY dateStr
    url := clean_text (row.url.getD [])
    status := clean_text row.status
    term := clean_text (row.term.getD [])
    usOrInternational := clean_text (row.usOrInternational.getD [])
    gpa := parse_float "GPA".data row.gpa
    gre := parse_float "GRE".data row.gre
    greV := parse_float "GRE V".data row.greV
    greAw := parse_float "GRE AW".data row.greAw
    degree := clean_text (row.degree.getD [])
    llmGeneratedProgram := []
    llmGeneratedUniversity := [] }

/-- `app.insert_row`: `INSERT ... ON CONFLICT (url) DO NOTHING`, reporting
`cur.rowcount > 0`.  If a stored row already carries the same url the
statement writes nothing and `rowcount` is 0; otherwise the row is
appended and `rowcount` is 1. -/
def insert_row (db : List AppRow) (row : InsRow) : List AppRow × Bool :=
  let p := insertParams row
  if db.any (fun r => r.url = p.url) then (db, false) else (db ++ [p], true)

/-- Running a sequence of inserts from a starting table state
(`load_data.main` / repeated `pull_data` calls). -/
def insertMany (db : List AppRow) (rows : List InsRow) : List AppRow :=
  rows.foldl (fun d r => (insert_row d r).1) db

/-! ## Survey row classifier (`module_5/src/scrape.py`)

The parsed markup is modelled at the level BeautifulSoup exposes it to the
classifier: a document is a list of tables in document order
(`soup.find("table")` = the first), a table optionally has a `tbody`, a
`tbody` has rows, a row has cells, and a cell carries its text nodes and
its anchors.  `get_text(separator=sep, strip=True)` joins the stripped,
non-empty text nodes with `sep`. -/

/-- An `<a>` element with its `href` attribute. -/
structure Anchor where
  href : Str
  deriving DecidableEq, Repr

/-- A `<td>` cell: its text nodes in document order, and its anchors. -/
structure HCell where
  texts : List Str
  anchors : List Anchor
  deriving DecidableEq, Repr

/-- A `<tr>` row: its `<td>` cells. -/
abbrev HRow := List HCell

/-- A `<table>`: its optional `<tbody>` holding the rows. -/
structure HTable where
  tbody : Option (List HRow)
  deriving DecidableEq, Repr

/-- A parsed page: its tables in document order. -/
structure Html where
  tables : List HTable
  deriving DecidableEq, Repr

/-- `cell.get_text(separator=sep, strip=True)`. -/
def getText (sep : Str) (c : HCell) : Str :=
  joinSep sep ((c.texts.map pyStrip).filter (· ≠ []))

/-- One raw applicant record as the classifier builds it (the dict of
`parse_main_row`, mutated by `parse_detail_row`).  `none` marks a dict key
that was never set. -/
structure ScrapedRow where
  program : Str
  school : Str
  programName : Str
  degree : Option Str
  dateAdded : Str
  status : Str
  url : Option Str
  gpa : Str
  greV : Str
  greAw : Str
  greQ : Str
  gre : Str
  term : Option Str
  usOrInternational : Option Str
  comments : List Str
  deriving DecidableEq, Repr

/-- The degree bucketing of `parse_main_row`:
`"phd" in lower` → PhD; `"master" in lower` or a whitelisted acronym →
Masters; otherwise the stripped text verbatim. -/
def bucketDegree (d : Str) : Str :=
  let dl := lowerStr d
  if containsSub "phd".data dl then "PhD".data
  else if containsSub "master".data dl ∨
      d ∈ ["MS".data, "MA".data, "MFA".data, "MBA".data, "MEng".data] then
    "Masters".data
  else d

/-- The GradCafe site origin prefixed to relative result links. -/
def siteOrigin : Str := "https://www.thegradcafe.com".data

/-- `scrape.parse_main_row` on the five cells of a main row. -/
def parse_main_row (c0 c1 c2 c3 c4 : HCell) : ScrapedRow :=
  let school := getText [] c0
  let programCell := getText " | ".data c1
  let programParts := pySplit " | ".data programCell
  let programName := programParts.headD []
  let link := c4.anchors.find? (fun a => containsSub "/result/".data a.href)
  { program := programName ++ ", ".data ++ school
    school := school
    programName := programName
    degree :=
      if 1 < programParts.length then
        some (bucketDegree (pyStrip (programParts.getD 1 [])))
      else none
    dateAdded := "Added on ".data ++ getText [] c2
    status := getText [] c3
    url := link.map fun a =>
      if strStarts "/".data a.href then siteOrigin ++ a.href else a.href
    gpa := [], greV := [], greAw := [], greQ := [], gre := []
    term := none
    usOrInternational := none
    comments := [] }

/-- Tail of the term pattern after the season word: `\s+\d{4}$`. -/
def wsDigits4 (r : Str) : Bool :=
  let w := r.takeWhile (isPyWs ·)
  w ≠ [] && (let d := r.drop w.length; d.length = 4 && d.all (·.isDigit))

/-- `re.match(r'^(fall|spring|summer|winter)\s+\d{4}$', part_lower)`. -/
def termMatch (pl : Str) : Bool :=
  ["fall".data, "spring".data, "summer".data, "winter".data].any fun ssn =>
    ssn.isPrefixOf pl && wsDigits4 (pl.drop ssn.length)

/-- Tail of the GPA pattern after `gpa`: `\s+\d+(\.\d+)?$`. -/
def wsNumber (r : Str) : Bool :=
  let w := r.takeWhile (isPyWs ·)
  w ≠ [] &&
    (let d := (r.drop w.length).takeWhile (·.isDigit)
     let rest := (r.drop w.length).drop d.length
     d ≠ [] &&
       match rest with
       | [] => true
       | '.' :: fs => fs ≠ [] && fs.all (·.isDigit)
       | _ => false)

/-- `re.match(r'^gpa\s+\d+(\.\d+)?$', part_lower)`. -/
def gpaMatch (pl : Str) : Bool :=
  "gpa".data.isPrefixOf pl && wsNumber (pl.drop 3)

/-- `any(x in part_lower for x in ["accepted","rejected","interview","wait"])`. -/
def statusKeyword (pl : Str) : Bool :=
  ["accepted".data, "rejected".data, "interview".data, "wait".data].any
    (containsSub · pl)

/-- One iteration of the fragment loop of `parse_detail_row`.  The state is
(record, `found_structured_data`, `comment_parts`). -/
def detailStep (st : ScrapedRow × Bool × List Str) (part : Str) :
    ScrapedRow × Bool × List Str :=
  let r := st.1
  let found := st.2.1
  let cps := st.2.2
  let pl := lowerStr part
  if termMatch pl then ({ r with term := some part }, true, cps)
  else if pl = "international".data then
    ({ r with usOrInternational := some "International".data }, true, cps)
  else if pl = "american".data then
    ({ r with usOrInternational := some "American".data }, true, cps)
  else if gpaMatch pl then ({ r with gpa := part }, true, cps)
  else if strStarts "gre v".data pl then ({ r with greV := part }, true, cps)
  else if strStarts "gre aw".data pl then ({ r with greAw := part }, true, cps)
  else if strStarts "gre q".data pl then ({ r with greQ := part }, true, cps)
  else if strStarts "gre".data pl then ({ r with gre := part }, true, cps)
  else if statusKeyword pl ∧ part.length < 50 then
    if r.status = [] then ({ r with status := part }, true, cps)
    else (r, found, cps)
  else (r, found, cps ++ [part])

/-- The fragment list of a detail row:
`parts = [p.strip() for p in text.split(" | ")]`. -/
def detailParts (text : Str) : List Str := (pySplit " | ".data text).map pyStrip

/-- A fragment the classifier routes to the *generic* GRE branch: its
lower-cased text starts with `gre` but with none of `gre v`, `gre aw`,
`gre q`. -/
def greGenericFrag (p : Str) : Bool :=
  strStarts "gre".data (lowerStr p) &&
  !strStarts "gre v".data (lowerStr p) &&
  !strStarts "gre aw".data (lowerStr p) &&
  !strStarts "gre q".data (lowerStr p)

/-- `scrape.parse_detail_row` on the text of a one-cell row
(the caller passes `cell.get_text(separator=" | ", strip=True)`).
The fold state is (record, `found_structured_data`, `comment_parts`). -/
def parse_detail_row (text : Str) (r : ScrapedRow) : ScrapedRow :=
  if text = [] then r
  else
    let st := (detailParts text).foldl detailStep (r, false, [])
    let r2 :=
      if st.2.2 ≠ [] then { st.1 with comments := st.1.comments ++ [joinSpace st.2.2] }
      else st.1
    if ¬ st.2.1 then
      if text ∉ r2.comments then { r2 with comments := r2.comments ++ [text] }
      else r2
    else r2

/-- One iteration of the row loop of `parse_survey`: a five-cell row closes
and emits the open record and opens a new one; a one-cell row updates the
open record if any; other rows are ignored. -/
def surveyStep (st : List ScrapedRow × Option ScrapedRow) (cells : HRow) :
    List ScrapedRow × Option ScrapedRow :=
  let (res, cur) := st
  if cells.length = 5 then
    let d : HCell := ⟨[], []⟩
    (res ++ cur.toList,
     some (parse_main_row (cells.getD 0 d) (cells.getD 1 d) (cells.getD 2 d)
       (cells.getD 3 d) (cells.getD 4 d)))
  else if cells.length = 1 then
    match cur with
    | some c =>
      let d : HCell := ⟨[], []⟩
      (res, some (parse_detail_row (getText " | ".data (cells.getD 0 d)) c))
    | none => (res, none)
  else st

/-- `scrape.parse_survey`: locate the first table and its tbody (empty list
if either is absent), run the row loop, and flush the still-open record. -/
def parse_survey (h : Html) : List ScrapedRow :=
  match h.tables.head? with
  | none => []
  | some table =>
    match table.tbody with
    | none => []
    | some rows =>
      let (res, cur) := rows.foldl surveyStep ([], none)
      res ++ cur.toList

/-! ## Crawl controller (`app.pull_data`, lines 171-217)

The network boundary is a parameter: `pageRows n` is the parse of the html
fetched for page `n` (page 1 from the base url, pages ≥ 2 from
`?page=n`).  `totalPages` is the pagination count `get_max_pages` read off
page 1.  The loop runs `page_num` over `1 .. min(total_pages, max_pages)`,
fetches pages ≥ 2 at the top of the iteration, stops on an empty parse,
inserts the page's rows, and stops once a page yields zero new inserts.
`fetchedPages` records every page number for which `_fetch` was called. -/

/-- The comment-list-to-string conversion `pull_data` applies before
inserting: `row["comments"] = " ".join(row["comments"]).strip()`. -/
def convRow (s : ScrapedRow) : InsRow :=
  { program := s.program
    comments := pyStrip (joinSpace s.comments)
    dateAdded := s.dateAdded
    url := s.url
    status := s.status
    term := s.term
    usOrInternational := s.usOrInternational
    gpa := s.gpa, gre := s.gre, greV := s.greV, greAw := s.greAw
    degree := s.degree }

/-- Insert one page's rows in order; returns the new table state and
`page_inserted`, the number of rows actually written. -/
def insertPage (db : List AppRow) (rows : List InsRow) : List AppRow × Nat :=
  rows.foldl
    (fun st r =>
      let (d', ok) := insert_row st.1 r
      (d', if ok then st.2 + 1 else st.2))
    (db, 0)

/-- The crawl-state telemetry of one `pull_data` invocation, together with
the table state and the audit trail of fetched page numbers. -/
structure PullTel where
  db : List AppRow
  pagesFetched : Nat
  totalScraped : Nat
  totalInserted : Nat
  fetchedPages : List Nat
  deriving Repr

/-- The `for page_num in range(1, pages_to_check + 1)` loop of `pull_data`;
`left` is the number of page indices still in the range, `pageNum` the
current one. -/
def pullLoop (pageRows : Nat → List ScrapedRow) : Nat → Nat → PullTel → PullTel
  | 0, _, t => t
  | left + 1, pageNum, t =>
    let t1 :=
      if 1 < pageNum then { t with fetchedPages := t.fetchedPages ++ [pageNum] }
      else t
    let rows := pageRows pageNum
    if rows = [] then t1
    else
      let rows' := rows.map convRow
      let pg := insertPage t1.db rows'
      let t2 : PullTel :=
        { t1 with
          db := pg.1
          pagesFetched := t1.pagesFetched + 1
          totalScraped := t1.totalScraped + rows'.length
          totalInserted := t1.totalInserted + pg.2 }
      if pg.2 = 0 then t2
      else pullLoop pageRows left (pageNum + 1) t2

/-- `app.pull_data` from the first successful fetch on: page 1 is fetched
before the loop (to read the pagination), then the loop covers pages
`1 .. min(total_pages, max_pages)`. -/
def pull_data (pageRows : Nat → List ScrapedRow) (totalPages maxPages : Nat)
    (db0 : List AppRow) : PullTel :=
  let pagesToCheck := min totalPages maxPages
  pullLoop pageRows pagesToCheck 1
    { db := db0, pagesFetched := 0, totalScraped := 0, totalInserted := 0,
      fetchedPages := [1] }

/-- The table state after ingesting pages `1 .. k` (the crawl's view). -/
def dbThrough (pageRows : Nat → List ScrapedRow) (db0 : List AppRow) :
    Nat → List AppRow
  | 0 => db0
  | k + 1 => (insertPage (dbThrough pageRows db0 k) ((pageRows (k + 1)).map convRow)).1

/-- How many rows of page `k` are new relative to the crawl's table state
when it reaches page `k` (the `page_inserted` counter for that page). -/
def pageInsCount (pageRows : Nat → List ScrapedRow) (db0 : List AppRow)
    (k : Nat) : Nat :=
  (insertPage (dbThrough pageRows db0 (k - 1)) ((pageRows k).map convRow)).2

/-! ## Name standardizer (`module_4/source/llm_standardizer.py`)

The canonical corpora `CANON_UNIS` / `CANON_PROGS` are loaded at import
time from data files that ship with the repository; they appear here as
parameters of the resolution functions.  Python `str.title()` upper-cases
every letter that does not follow a letter and lower-cases the rest;
`re.fullmatch` of the small anchored abbreviation patterns is expanded
into the finite language each pattern denotes. -/

/-- Python `str.title()` (ASCII letters are the cased characters here). -/
def pyTitleAux : Bool → Str → Str
  | _, [] => []
  | prevAlpha, c :: cs =>
    if c.isAlpha then
      (if prevAlpha then c.toLower else c.toUpper) :: pyTitleAux true cs
    else c :: pyTitleAux false cs

/-- Python `str.title()`. -/
def pyTitle (s : Str) : Str := pyTitleAux false s

/-- `re.sub(r"\bOf\b", "of", s)`: replace every word-bounded occurrence of
`Of`, scanning left to right.  `prev` is the character preceding the
current position in the original string (the replacement has the same
letters, so continuing with `'f'` is exact). -/
def subOfWordAux : Option Char → Str → Str
  | prev, 'O' :: 'f' :: rest =>
    if (prev.all fun c => ¬ isWordChar c) ∧
        (rest.headD ' ' |> isWordChar) = false then
      'o' :: 'f' :: subOfWordAux (some 'f') rest
    else 'O' :: subOfWordAux (some 'O') ('f' :: rest)
  | _, c :: cs => c :: subOfWordAux (some c) cs
  | _, [] => []

/-- `re.sub(r"\bOf\b", "of", s)`. -/
def subOfWord (s : Str) : Str := subOfWordAux none s

/-- Split on the regex `,| at | @ ` (alternatives tried in this order at
each position, leftmost match first), as in `_split_fallback`. -/
def splitFallbackAux : Nat → Str → Str → List Str
  | 0, acc, rest => [acc.reverse ++ rest]
  | fuel + 1, acc, rest =>
    match rest with
    | [] => [acc.reverse]
    | c :: cs =>
      if c = ',' then acc.reverse :: splitFallbackAux fuel [] cs
      else if " at ".data.isPrefixOf rest then
        acc.reverse :: splitFallbackAux fuel [] (rest.drop 4)
      else if " @ ".data.isPrefixOf rest then
        acc.reverse :: splitFallbackAux fuel [] (rest.drop 3)
      else splitFallbackAux fuel (c :: acc) cs

/-- `re.split(r",| at | @ ", s)`. -/
def splitFallbackSegs (s : Str) : List Str := splitFallbackAux (s.length + 1) [] s

/-- The language of `(?i)mcg(ill)?(\.)?` (the fallback's McGill pattern). -/
def mcgillFallbackForms : List Str :=
  ["mcg".data, "mcgill".data, "mcg.".data, "mcgill.".data]

/-- The language of `(?i)(ubc|u\.?b\.?c\.?|university of british columbia)`. -/
def ubcForms : List Str :=
  ["ubc".data, "u.bc".data, "ub.c".data, "ubc.".data, "u.b.c".data,
   "u.bc.".data, "ub.c.".data, "u.b.c.".data,
   "university of british columbia".data]

/-- `llm_standardizer._split_fallback`: whitespace collapse, strip, split
into (program, university), expand the two fallback abbreviations, title
case, `Of` → `of`, and the `"Unknown"` sentinel for a missing university. -/
def split_fallback (text : Str) : Str × Str :=
  let s := stripCommas (pyStrip (collapseWs text))
  let parts := ((splitFallbackSegs s).map pyStrip).filter (· ≠ [])
  let prog := parts.headD []
  let uni := parts.getD 1 []
  let uni := if lowerStr uni ∈ mcgillFallbackForms then "McGill University".data else uni
  let uni := if lowerStr uni ∈ ubcForms then "University of British Columbia".data else uni
  let prog := pyTitle prog
  let uni :=
    if uni ≠ [] then subOfWord (pyTitle uni) else "Unknown".data
  (prog, uni)

/-- `ABBREV_UNI`, in dict insertion order; each anchored case-insensitive
pattern is listed as the finite set of lowercase strings it accepts
(`(?i)^mcg(\.|ill)?$` accepts exactly `mcg`, `mcg.`, `mcgill`). -/
def abbrevUni : List (List Str × Str) :=
  [ (["mcg".data, "mcg.".data, "mcgill".data], "McGill University".data),
    (["ubc".data, "u.bc".data, "ub.c".data, "ubc.".data, "u.b.c".data,
      "u.bc.".data, "ub.c.".data, "u.b.c.".data], "University of British Columbia".data),
    (["uoft".data], "University of Toronto".data),
    (["cuny".data], "The City University of New York".data),
    (["duke".data], "Duke University".data),
    (["mit".data], "Massachusetts Institute of Technology".data),
    (["cmu".data], "Carnegie Mellon University".data),
    (["jhu".data], "Johns Hopkins University".data) ]

/-- `COMMON_UNI_FIXES` (exact-key lookup). -/
def commonUniFixes : List (Str × Str) :=
  [ ("McGiill University".data, "McGill University".data),
    ("Mcgill University".data, "McGill University".data),
    ("University Of British Columbia".data, "University of British Columbia".data),
    ("Massachusetts Institute of Technology (MIT)".data,
      "Massachusetts Institute of Technology".data),
    ("University of Alabama At Birmingham".data,
      "University of Alabama at Birmingham".data) ]

/-- `COMMON_PROG_FIXES` (exact-key lookup). -/
def commonProgFixes : List (Str × Str) :=
  [ ("Mathematic".data, "Mathematics".data),
    ("Info Studies".data, "Information Studies".data),
    ("Comp Sci".data, "Computer Science".data),
    ("CS".data, "Computer Science".data) ]

/-- `re.sub(r"\s*\([A-Za-z]+\)\s*$", "", u)`: strip one trailing
parenthetical of letters together with the whitespace around it. -/
def stripTrailingParen (s : Str) : Str :=
  let r := s.reverse
  let r1 := r.dropWhile (isPyWs ·)
  match r1 with
  | ')' :: r2 =>
    let letters := r2.takeWhile (·.isAlpha)
    if letters ≠ [] ∧ (r2.drop letters.length).headD ' ' = '(' then
      (((r2.drop letters.length).drop 1).dropWhile (isPyWs ·)).reverse
    else s
  | _ => s

/-- The UC campus patterns `(?i).*\b( ... )\b.*`, each alternative given as
its word segments (consecutive segments are separated by `\s*` in the
pattern; `irvine?n?e?` is expanded to the words it accepts). -/
def ucPatterns : List (List (List Str) × Str) :=
  [ ([["ucla".data], ["los".data, "angeles".data]],
      "University of California, Los Angeles".data),
    ([["ucb".data], ["uc".data, "berkeley".data], ["berkeley".data]],
      "University of California, Berkeley".data),
    ([["ucsd".data], ["san".data, "diego".data]],
      "University of California, San Diego".data),
    ([["ucsb".data], ["santa".data, "barbara".data]],
      "University of California, Santa Barbara".data),
    ([["uci".data], ["irvin".data], ["irvine".data], ["irvinn".data],
      ["irvinen".data], ["irvinee".data], ["irvinne".data], ["irvinene".data]],
      "University of California, Irvine".data),
    ([["ucd".data], ["uc".data, "davis".data], ["davis".data]],
      "University of California, Davis".data),
    ([["ucsc".data], ["santa".data, "cruz".data]],
      "University of California, Santa Cruz".data),
    ([["ucr".data], ["riverside".data]],
      "University of California, Riverside".data),
    ([["ucm".data], ["merced".data]],
      "University of California, Merced".data),
    ([["ucsf".data], ["san".data, "francisco".data]],
      "University of California, San Francisco".data) ]

/-- Match the segments of one alternative starting at the head of `s`,
skipping the `\s*` between consecutive segments (each segment begins with
a letter, so the greedy skip is exact); returns the rest of the string. -/
def matchSegsFrom : List Str → Str → Option Str
  | [], s => some s
  | seg :: rest, s =>
    if seg.isPrefixOf s then
      match rest with
      | [] => some (s.drop seg.length)
      | _ => matchSegsFrom rest ((s.drop seg.length).dropWhile (isPyWs ·))
    else none

/-- `re.fullmatch(r"(?i).*\b(alts)\b.*", u)`: some word-bounded occurrence
of an alternative, with no newline outside the occurrence (`.` does not
match a newline). -/
def ucPatternMatch (alts : List (List Str)) (u : Str) : Bool :=
  let l := lowerStr u
  (List.range (l.length + 1)).any fun i =>
    (decide (i = 0) || !isWordChar (l.getD (i - 1) ' ')) &&
    !(l.take i).contains '\n' &&
    alts.any fun segs =>
      match matchSegsFrom segs (l.drop i) with
      | none => false
      | some rest =>
        (decide (rest = []) || !isWordChar (rest.headD ' ')) &&
        !rest.contains '\n'

/-! ### difflib fuzzy matching

`difflib.SequenceMatcher` without junk (the autojunk heuristic only fires
for sequences of 200+ elements, far beyond these names).  The cutoffs
0.84 / 0.86 are represented as exact rationals; no theorem below depends
on a similarity score landing exactly on a cutoff. -/

/-- Lookup in an association list of naturals (difflib's `j2len`). -/
def alistGetD (l : List (Nat × Nat)) (k : Nat) : Nat :=
  match l.find? (fun p => p.1 = k) with
  | some p => p.2
  | none => 0

/-- Inner loop of `find_longest_match` for one index `i` of `a`: update
`j2len` and the best block over the matching positions `j` of `b`. -/
def flmInner (a b : Str) (blo bhi i : Nat)
    (st : List (Nat × Nat) × (Nat × Nat × Nat)) :
    List (Nat × Nat) × (Nat × Nat × Nat) :=
  let c := a.getD i ' '
  let js := (List.range b.length).filter fun j =>
    decide (blo ≤ j) && decide (j < bhi) && decide (b.getD j ' ' = c)
  js.foldl
    (fun st2 j =>
      let (j2len, best) := st2
      let k := (if j = 0 then 0 else alistGetD st.1 (j - 1)) + 1
      let best' := if best.2.2 < k then (i + 1 - k, j + 1 - k, k) else best
      ((j, k) :: j2len, best'))
    ([], st.2)

/-- `SequenceMatcher.find_longest_match` over `a[alo:ahi]` / `b[blo:bhi]`
(no junk): returns `(i, j, size)` of the earliest longest matching block. -/
def findLongestMatch (a b : Str) (alo ahi blo bhi : Nat) : Nat × Nat × Nat :=
  (((List.range ahi).filter (alo ≤ ·)).foldl
    (fun st i => flmInner a b blo bhi i st)
    ([], (alo, blo, 0))).2

/-- `SequenceMatcher.get_matching_blocks` (without the terminating
zero-block), by the standard divide-and-conquer around the longest block;
`fuel` bounds the recursion depth. -/
def matchingBlocksAux (a b : Str) :
    Nat → Nat → Nat → Nat → Nat → List (Nat × Nat × Nat)
  | 0, _, _, _, _ => []
  | fuel + 1, alo, ahi, blo, bhi =>
    let (i, j, k) := findLongestMatch a b alo ahi blo bhi
    if k = 0 then []
    else
      matchingBlocksAux a b fuel alo i blo j ++ [(i, j, k)] ++
        matchingBlocksAux a b fuel (i + k) ahi (j + k) bhi

/-- Total size of the matching blocks of `a` and `b`. -/
def matchTotal (a b : Str) : Nat :=
  ((matchingBlocksAux a b (a.length + b.length + 1) 0 a.length 0 b.length).map
    (fun t => t.2.2)).sum

/-- `SequenceMatcher.ratio()` with `seq1 = a`, `seq2 = b`:
`2.0 * M / (len(a) + len(b))` (1.0 when both are empty). -/
def difflibRatio (a b : Str) : ℚ :=
  if a.length + b.length = 0 then 1
  else 2 * (matchTotal a b : ℚ) / ((a.length : ℚ) + (b.length : ℚ))

/-- Python string `<` (lexicographic on code points). -/
def strLt : Str → Str → Bool
  | [], [] => false
  | [], _ :: _ => true
  | _ :: _, [] => false
  | c :: cs, d :: ds => if c = d then strLt cs ds else decide (c < d)

/-- `llm_standardizer._best_match`: `difflib.get_close_matches(name,
candidates, n=1, cutoff)` — the candidate of highest ratio at or above the
cutoff (Python breaks ratio ties by the larger string, keeping the first
among full duplicates), or `None`. -/
def best_match (name : Str) (candidates : List Str) (cutoff : ℚ) : Option Str :=
  if name = [] ∨ candidates = [] then none
  else
    let scored := candidates.filterMap fun x =>
      let r := difflibRatio x name
      if cutoff ≤ r then some (r, x) else none
    let best := scored.foldl
      (fun acc p =>
        match acc with
        | none => some p
        | some q =>
          if q.1 < p.1 ∨ (q.1 = p.1 ∧ strLt q.2 p.2) then some p else some q)
      none
    best.map (·.2)

/-- `llm_standardizer._post_normalize_program`, parameterized by the
`CANON_PROGS` corpus. -/
def post_normalize_program (canonProgs : List Str) (prog : Str) : Str :=
  let p := pyStrip prog
  let p := ((commonProgFixes.find? (fun e => e.1 = p)).map (·.2)).getD p
  let p := pyTitle p
  if p ∈ canonProgs then p
  else
    match best_match p canonProgs (84 / 100) with
    | some m => m
    | none => p

/-- `llm_standardizer._post_normalize_university`, parameterized by the
`CANON_UNIS` corpus: abbreviation expansion, spelling fixes, trailing
parenthetical strip, title case with `Of` → `of`, then — only for
California-looking names — the ordered campus patterns, and finally
canonical exact/fuzzy matching with the `"Unknown"` sentinel. -/
def post_normalize_university (canonUnis : List Str) (uni : Str) : Str :=
  let u := pyStrip uni
  let u :=
    match abbrevUni.find? (fun e => lowerStr u ∈ e.1) with
    | some e => e.2
    | none => u
  let u := ((commonUniFixes.find? (fun e => e.1 = u)).map (·.2)).getD u
  let u := pyStrip (stripTrailingParen u)
  let u := if u ≠ [] then subOfWord (pyTitle u) else u
  let generic : Str :=
    if u ∈ canonUnis then u
    else
      match best_match u canonUnis (86 / 100) with
      | some m => m
      | none => if u ≠ [] then u else "Unknown".data
  if containsSub "california".data (lowerStr u) ∨ strStarts "uc".data (lowerStr u) then
    match ucPatterns.find? (fun pc => ucPatternMatch pc.1 u) with
    | some pc => pc.2
    | none => generic
  else generic

/-- `llm_standardizer.standardize`.  The two effectful steps are explicit:
`load` is the outcome of `_load_llm()` and `completion` the outcome of
`llm.create_chat_completion(...)` combined with the scan/decode of its
text — `Except.error` models an exception (neither call sits inside a
`try`, so it propagates), `.ok (some (p, u))` a response from which the
two keys were recovered, and `.ok none` a response whose scan or JSON
decode failed (the caught `JSONDecodeError`/`AttributeError`/`TypeError`),
which triggers `_split_fallback`. -/
def standardize (load : Except Str Unit)
    (completion : Except Str (Option (Str × Str)))
    (canonProgs canonUnis : List Str) (programText : Str) :
    Except Str (Str × Str) := do
  let _ ← load
  let parsed ← completion
  let (p, u) :=
    match parsed with
    | some (sp, su) => (pyStrip sp, pyStrip su)
    | none => split_fallback programText
  pure (post_normalize_program canonProgs p,
        post_normalize_university canonUnis u)

/-! ## Concrete sample data used by witnesses and counterexamples -/

/-- A minimal applicants row carrying a given stored AW score. -/
def rowWithAw (q : Option ℚ) : AppRow :=
  { program := [], comments := [], dateAdded := none, url := [], status := [],
    term := [], usOrInternational := [], gpa := none, gre := none,
    greV := none, greAw := q, degree := [], llmGeneratedProgram := [],
    llmGeneratedUniversity := [] }

/-- A minimal scraped-row dictionary with a given url value. -/
def insRowWithUrl (u : Option Str) : InsRow :=
  { program := [], comments := [], dateAdded := [], url := u, status := [],
    term := none, usOrInternational := none, gpa := [], gre := [],
    greV := [], greAw := [], degree := none }

/-- A minimal classifier record carrying a fixed result url. -/
def sampleScraped : ScrapedRow :=
  { program := "Physics, X".data, school := "X".data
    programName := "Physics".data, degree := none, dateAdded := []
    status := [], url := some "https://x/result/9".data
    gpa := [], greV := [], greAw := [], greQ := [], gre := []
    term := none, usOrInternational := none, comments := [] }

/-- A site on which every page parses to the same single record. -/
def samplePages : Nat → List ScrapedRow := fun _ => [sampleScraped]

/-- A table already holding the row that `sampleScraped` ingests to. -/
def sampleDb : List AppRow := [insertParams (convRow sampleScraped)]

/-!
# Theorems
-/

/-! ## C3: crawl-delay adoption -/

/-- Claim C3 as stated is false: with a policy-suggested delay of 1/4 s
and a caller-requested delay of 1/2 s, the crawl adopts the *smaller*
suggested delay (the code replaces the requested delay whenever the
suggestion merely differs), not the stricter of the two. -/
theorem adopted_delay_not_stricter_counterexample :
    adoptedDelay (some (1 / 4 : ℚ)) (1 / 2) = 1 / 4 ∧
      (1 / 4 : ℚ) < 1 / 2 ∧ adoptedDelay (some (1 / 4 : ℚ)) (1 / 2) ≠ 1 / 2 := by
  refine ⟨?_, by norm_num, ?_⟩ <;>
    simp only [adoptedDelay, get_crawl_delay] <;> norm_num

/-- Claim C3, amended: when the crawl is not bypassing the policy checker,
it adopts the checker's suggested delay whenever one is supplied — even a
suggestion smaller than the caller's request replaces it — and keeps the
caller's requested delay only when the checker supplies none. -/
theorem adopted_delay_eq_suggested_or_requested (c : Option ℚ) (r : ℚ) :
    adoptedDelay c r = c.getD r := by
  cases c with
  | none => simp [adoptedDelay, get_crawl_delay]
  | some d =>
    by_cases h : d = r <;> simp [adoptedDelay, get_crawl_delay, h]

/-! ## C4: the score-correction cleanup pass -/

/-- Claim C4 as stated is false: a stored Analytical-Writing score of −1
lies outside the valid 0–6 range, yet `fix_gre_aw` leaves the row
unchanged and reports zero corrections — the pass only nulls scores
strictly above 6. -/
theorem fix_gre_aw_ignores_negative_counterexample :
    (rowWithAw (some (-1))).greAw = some (-1) ∧ (-1 : ℚ) < 0 ∧
      (fix_gre_aw [rowWithAw (some (-1))]).1 = [rowWithAw (some (-1))] ∧
      (fix_gre_aw [rowWithAw (some (-1))]).2 = 0 := by
  refine ⟨rfl, by norm_num, ?_, ?_⟩ <;> rfl

/-- Claim C4, amended: the cleanup pass nulls exactly the stored
Analytical-Writing scores strictly greater than 6 and returns the count of
rows corrected; every row whose score is at most 6 — including scores
below 0 — is kept unchanged, no score above 6 survives, and a second run
corrects zero rows. -/
theorem fix_gre_aw_nulls_above_six (db : List AppRow) :
    (∀ r ∈ (fix_gre_aw db).1, ∀ v, r.greAw = some v → v ≤ 6) ∧
    (∀ r ∈ db, (∀ v, r.greAw = some v → v ≤ 6) → r ∈ (fix_gre_aw db).1) ∧
    (fix_gre_aw db).2 = db.countP (fun r => r.greAw.any fun v => decide (6 < v)) ∧
    (fix_gre_aw (fix_gre_aw db).1).2 = 0 := by
  have hbad : ∀ r : AppRow, (∀ v, r.greAw = some v → v ≤ 6) →
      (r.greAw.any fun v => decide ((6 : ℚ) < v)) = false := by
    intro r h
    cases hr : r.greAw with
    | none => rfl
    | some v =>
      simp only [Option.any_some, decide_eq_false_iff_not, not_lt]
      exact h v hr
  have hmem : ∀ r ∈ (fix_gre_aw db).1, ∀ v, r.greAw = some v → v ≤ 6 := by
    intro r hr v hv
    simp only [fix_gre_aw, List.mem_map] at hr
    obtain ⟨r₀, _, rfl⟩ := hr
    by_cases h : (r₀.greAw.any fun v => decide ((6 : ℚ) < v)) = true
    · rw [if_pos h] at hv
      simp at hv
    · rw [if_neg h] at hv
      cases hb : r₀.greAw with
      | none => rw [hb] at hv; simp at hv
      | some w =>
        rw [hb] at hv h
        simp only [Option.any_some, decide_eq_true_eq] at h
        cases hv
        exact le_of_not_lt h
  refine ⟨hmem, ?_, rfl, ?_⟩
  · intro r hr h
    simp only [fix_gre_aw, List.mem_map]
    exact ⟨r, hr, by rw [if_neg (by simp [hbad r h])]⟩
  · show List.countP (fun r => r.greAw.any fun v => decide ((6 : ℚ) < v))
      (fix_gre_aw db).1 = 0
    rw [List.countP_eq_zero]
    intro r hr
    exact by simpa using hbad r (hmem r hr)

/-- Witness for the amended C4 theorem: the row carrying the (invalid but
not-above-6) score −1 survives the pass untouched. -/
theorem fix_gre_aw_nulls_above_six_witness :
    rowWithAw (some (-1)) ∈ (fix_gre_aw [rowWithAw (some (-1))]).1 :=
  (fix_gre_aw_nulls_above_six [rowWithAw (some (-1))]).2.1 (rowWithAw (some (-1)))
    (by simp)
    (by intro v hv; cases hv; norm_num)

/-! ## C8: absent table or body yields an empty parse -/

/-- Claim C8: for every page in which the first table is absent or the
first table has no body section, `parse_survey` returns the empty list
(and, being a total function of the parsed markup, raises nothing). -/
theorem parse_survey_missing_structure_empty (h : Html)
    (hm : h.tables.head? = none ∨ ∃ t, h.tables.head? = some t ∧ t.tbody = none) :
    parse_survey h = [] := by
  rcases hm with hm | ⟨t, ht, hb⟩
  · simp [parse_survey, hm]
  · simp [parse_survey, ht, hb]

/-- Witness for C8: a page with no table at all, and a page whose only
table lacks a body, both parse to the empty list. -/
theorem parse_survey_missing_structure_witness :
    parse_survey ⟨[]⟩ = [] ∧ parse_survey ⟨[⟨none⟩]⟩ = [] :=
  ⟨parse_survey_missing_structure_empty ⟨[]⟩ (Or.inl rfl),
   parse_survey_missing_structure_empty ⟨[⟨none⟩]⟩ (Or.inr ⟨⟨none⟩, rfl, rfl⟩)⟩

/-! ## C1: totality of `standardize` -/

/-- Claim C1 as stated is false: when the model load raises (here: the
`_load_llm()` outcome is an error), `standardize` propagates the exception
instead of returning a two-key result — `_load_llm()` and
`create_chat_completion` sit outside the `try`, which only guards the
JSON scan/decode. -/
theorem standardize_propagates_load_error_counterexample :
    standardize (.error "model load failed".data) (.ok none) [] []
      "Physics, MIT".data = .error "model load failed".data := rfl

/-- Claim C1, amended: `standardize` is total in its *text* argument and
fully absorbs malformed inference output — whenever the model load and the
completion call themselves succeed, it returns a two-key result for every
input text (empty included) and every scan/decode outcome — but an
exception raised by the model load or by the completion call itself
propagates to the caller. -/
theorem standardize_total_when_calls_succeed
    (parsed : Option (Str × Str)) (cp cu : List Str) (text e : Str) :
    (∃ p u, standardize (.ok ()) (.ok parsed) cp cu text = .ok (p, u)) ∧
    standardize (.error e) (.ok parsed) cp cu text = .error e ∧
    standardize (.ok ()) (.error e) cp cu text = .error e :=
  ⟨⟨_, _, rfl⟩, rfl, rfl⟩

/-! ## C6: `standardize("MIT")` on the fallback path -/

/-- Claim C6 as stated is false: on the deterministic fallback path (scan
or decode of the inference output failed), `standardize("MIT")` yields the
university `"Unknown"`, not `"Massachusetts Institute of Technology"` —
the fallback takes the single segment as the *program*, leaving the
university empty, and the `ABBREV_UNI` expansion never sees `"MIT"`. -/
theorem standardize_mit_fallback_counterexample :
    standardize (.ok ()) (.ok none) [] [] "MIT".data
        = .ok ("Mit".data, "Unknown".data) ∧
      ("Unknown".data : Str) ≠ "Massachusetts Institute of Technology".data :=
  ⟨rfl, by decide⟩

/-- Claim C6, amended: the deterministic expansion of `"MIT"` to
`"Massachusetts Institute of Technology"` does happen without any
inference call, but only when `"MIT"` occupies the *university* position
of the input (e.g. `"Physics, MIT"`); the bare input `"MIT"` lands in the
program slot and resolves the university to `"Unknown"`.  Stated on the
fallback path, for any corpora containing the canonical MIT name. -/
theorem standardize_mit_resolves_in_university_position (cp cu : List Str)
    (h : "Massachusetts Institute of Technology".data ∈ cu) :
    ∃ p, standardize (.ok ()) (.ok none) cp cu "Physics, MIT".data
        = .ok (p, "Massachusetts Institute of Technology".data) := by
  refine ⟨post_normalize_program cp "Physics".data, ?_⟩
  have h1 : post_normalize_university cu "Mit".data =
      (if "Massachusetts Institute of Technology".data ∈ cu
       then "Massachusetts Institute of Technology".data
       else
         match best_match "Massachusetts Institute of Technology".data cu (86 / 100) with
         | some m => m
         | none => "Massachusetts Institute of Technology".data) := rfl
  show Except.ok (post_normalize_program cp "Physics".data,
        post_normalize_university cu "Mit".data) = _
  rw [h1, if_pos h]

/-- Witness for the amended C6 theorem, with the canonical corpus
containing exactly the MIT name. -/
theorem standardize_mit_resolves_witness :
    ∃ p, standardize (.ok ()) (.ok none) []
        ["Massachusetts Institute of Technology".data] "Physics, MIT".data
        = .ok (p, "Massachusetts Institute of Technology".data) :=
  standardize_mit_resolves_in_university_position []
    ["Massachusetts Institute of Technology".data] (by simp)

/-! ## C7: campus-specific resolution beats generic matching -/

/-- Claim C7: on the fallback path `standardize("Computer Science, UC
Berkeley")` resolves the university to `"University of California,
Berkeley"` for *every* canonical corpus — the campus pattern returns
before the generic exact/fuzzy corpus matching is ever consulted, so the
generic California name can never be produced for this input. -/
theorem standardize_uc_berkeley_campus_specific (cp cu : List Str) :
    ∃ p, standardize (.ok ()) (.ok none) cp cu
        "Computer Science, UC Berkeley".data
        = .ok (p, "University of California, Berkeley".data) :=
  ⟨post_normalize_program cp "Computer Science".data, rfl⟩

/-! ## Insert-or-skip helper lemmas (shared by C2, C5 and C10) -/

/-- `insert_row` on a url already stored: the statement's `ON CONFLICT`
clause writes nothing and `rowcount` is 0. -/
theorem insert_row_dup (db : List AppRow) (row : InsRow)
    (h : ∃ r ∈ db, r.url = (insertParams row).url) :
    insert_row db row = (db, false) := by
  obtain ⟨r, hr, hu⟩ := h
  have ha : (db.any fun q => decide (q.url = (insertParams row).url)) = true :=
    List.any_eq_true.mpr ⟨r, hr, by simp [hu]⟩
  simp [insert_row, ha]

/-- `insert_row` on a fresh url: the row is appended and `rowcount` is 1. -/
theorem insert_row_fresh (db : List AppRow) (row : InsRow)
    (h : ∀ r ∈ db, r.url ≠ (insertParams row).url) :
    insert_row db row = (db ++ [insertParams row], true) := by
  have ha : (db.any fun q => decide (q.url = (insertParams row).url)) = false := by
    rw [List.any_eq_false]
    intro r hr
    simpa using h r hr
  simp [insert_row, ha]

/-- One insert preserves "at most one stored row per url". -/
theorem countP_url_insert_le (u : Str) (db : List AppRow) (row : InsRow)
    (h : db.countP (fun r => decide (r.url = u)) ≤ 1) :
    ((insert_row db row).1).countP (fun r => decide (r.url = u)) ≤ 1 := by
  by_cases hd : ∃ r ∈ db, r.url = (insertParams row).url
  · rw [insert_row_dup db row hd]
    exact h
  · rw [insert_row_fresh db row (fun r hr he => hd ⟨r, hr, he⟩)]
    rw [List.countP_append]
    by_cases hu : (insertParams row).url = u
    · have h0 : db.countP (fun r => decide (r.url = u)) = 0 := by
        rw [List.countP_eq_zero]
        intro r hr
        simp only [decide_eq_true_eq]
        intro he
        exact hd ⟨r, hr, by rw [he, hu]⟩
      simp [h0, List.countP_cons, hu]
    · simp [List.countP_cons, hu]
      exact h

/-- A run of inserts preserves "at most one stored row per url". -/
theorem countP_url_insertMany_le (u : Str) :
    ∀ (rows : List InsRow) (db : List AppRow),
      db.countP (fun r => decide (r.url = u)) ≤ 1 →
      (insertMany db rows).countP (fun r => decide (r.url = u)) ≤ 1 := by
  intro rows
  induction rows with
  | nil => exact fun db h => h
  | cons r rs ih => exact fun db h => ih _ (countP_url_insert_le u db r h)

/-! ## C2: the url uniqueness key -/

/-- Claim C2: inserting a record whose (normalized) url is already stored
leaves the table unchanged and reports not-inserted; inserting a record
whose url is fresh appends it and reports inserted; and over every
sequence of inserts starting from an empty table, each unique url maps to
at most one persisted row. -/
theorem insert_url_unique (db : List AppRow) (row : InsRow)
    (rows : List InsRow) (u : Str) :
    ((∃ r ∈ db, r.url = (insertParams row).url) →
      insert_row db row = (db, false)) ∧
    ((∀ r ∈ db, r.url ≠ (insertParams row).url) →
      insert_row db row = (db ++ [insertParams row], true)) ∧
    (insertMany [] rows).countP (fun r => decide (r.url = u)) ≤ 1 :=
  ⟨insert_row_dup db row, insert_row_fresh db row,
   countP_url_insertMany_le u rows [] (by simp)⟩

/-- Witness for C2: re-inserting a record with the same result url is a
no-op reporting `false`, inserting it into an empty table reports `true`,
and twice-ingested urls leave one row. -/
theorem insert_url_unique_witness :
    insert_row [insertParams (insRowWithUrl (some "https://x/result/1".data))]
        (insRowWithUrl (some "https://x/result/1".data))
      = ([insertParams (insRowWithUrl (some "https://x/result/1".data))], false) ∧
    insert_row [] (insRowWithUrl (some "https://x/result/1".data))
      = ([insertParams (insRowWithUrl (some "https://x/result/1".data))], true) ∧
    (insertMany []
        [insRowWithUrl (some "https://x/result/1".data),
         insRowWithUrl (some "https://x/result/1".data)]).countP
      (fun r => decide (r.url = "https://x/result/1".data)) ≤ 1 := by
  refine ⟨?_, ?_, ?_⟩
  · exact (insert_url_unique _ _ [] []).1
      ⟨insertParams (insRowWithUrl (some "https://x/result/1".data)),
       by simp, rfl⟩
  · exact (insert_url_unique _ _ [] []).2.1 (by simp)
  · exact (insert_url_unique [] (insRowWithUrl none) _ _).2.2

/-! ## C10: url-less records collapse onto one stored row -/

/-- Claim C10: a main row whose fifth cell has no anchor matching the
result-link pattern yields a record with no url field; at insertion a
missing url normalizes to the empty string, which is itself subject to the
uniqueness key — once some row with the empty url is stored, every later
url-less record reports not-inserted, and any insert sequence from an
empty table persists at most one url-less row. -/
theorem urlless_rows_collapse (c0 c1 c2 c3 c4 : HCell) (db : List AppRow)
    (row : InsRow) (rows : List InsRow) :
    ((∀ a ∈ c4.anchors, ¬ containsSub "/result/".data a.href) →
      (parse_main_row c0 c1 c2 c3 c4).url = none) ∧
    (row.url = none → (∃ r ∈ db, r.url = ([] : Str)) →
      insert_row db row = (db, false)) ∧
    (insertMany [] rows).countP (fun r => decide (r.url = ([] : Str))) ≤ 1 := by
  refine ⟨?_, ?_, countP_url_insertMany_le [] rows [] (by simp)⟩
  · intro h
    have hf : c4.anchors.find? (fun a => containsSub "/result/".data a.href)
        = none :=
      List.find?_eq_none.mpr (fun a ha => by simpa using h a ha)
    simp [parse_main_row, hf]
  · intro h0 hex
    have hu : (insertParams row).url = [] := by
      simp [insertParams, h0, clean_text]
    exact insert_row_dup db row (hu ▸ hex)

/-- Witness for C10: a fifth cell whose only anchor is not a result link
yields no url, and a second url-less record is reported not-inserted. -/
theorem urlless_rows_collapse_witness :
    (parse_main_row ⟨[], []⟩ ⟨[], []⟩ ⟨[], []⟩ ⟨[], []⟩
        ⟨[], [⟨"/about".data⟩]⟩).url = none ∧
    insert_row [insertParams (insRowWithUrl none)] (insRowWithUrl none)
      = ([insertParams (insRowWithUrl none)], false) := by
  constructor
  · exact (urlless_rows_collapse ⟨[], []⟩ ⟨[], []⟩ ⟨[], []⟩ ⟨[], []⟩
      ⟨[], [⟨"/about".data⟩]⟩ [] (insRowWithUrl none) []).1 (by decide)
  · exact (urlless_rows_collapse ⟨[], []⟩ ⟨[], []⟩ ⟨[], []⟩ ⟨[], []⟩
      ⟨[], []⟩ [insertParams (insRowWithUrl none)] (insRowWithUrl none) []).2.1
      rfl ⟨insertParams (insRowWithUrl none), by simp, rfl⟩

/-! ## C5: the catch-up stopping condition -/

/-- One unfolding of the page loop. -/
theorem pullLoop_succ (pr : Nat → List ScrapedRow) (left pageNum : Nat)
    (t : PullTel) :
    pullLoop pr (left + 1) pageNum t =
      (let t1 :=
        if 1 < pageNum then { t with fetchedPages := t.fetchedPages ++ [pageNum] }
        else t
       let rows := pr pageNum
       if rows = [] then t1
       else
         let rows' := rows.map convRow
         let pg := insertPage t1.db rows'
         let t2 : PullTel :=
           { t1 with
             db := pg.1
             pagesFetched := t1.pagesFetched + 1
             totalScraped := t1.totalScraped + rows'.length
             totalInserted := t1.totalInserted + pg.2 }
         if pg.2 = 0 then t2
         else pullLoop pr left (pageNum + 1) t2) := rfl

/-- The page loop, started at page `m` in a state consistent with having
ingested pages `1 .. m-1`, runs to page `N` and stops there when pages
`m .. N-1` each contribute a new row and page `N` contributes none:
it reports `N` fetched pages and never touches a page beyond `N`. -/
theorem pullLoop_caughtup (pr : Nat → List ScrapedRow) (db0 : List AppRow)
    (C N : Nat) (hNC : N ≤ C)
    (hne : pr N ≠ [])
    (hN : pageInsCount pr db0 N = 0) :
    ∀ (j m : Nat) (t : PullTel), m + j = N → 1 ≤ m →
      t.db = dbThrough pr db0 (m - 1) →
      t.pagesFetched = m - 1 →
      (∀ p ∈ t.fetchedPages, p ≤ m) →
      (∀ k, m ≤ k → k < N → 1 ≤ pageInsCount pr db0 k) →
      (pullLoop pr (C - m + 1) m t).pagesFetched = N ∧
      ∀ p ∈ (pullLoop pr (C - m + 1) m t).fetchedPages, p ≤ N := by
  intro j
  induction j with
  | zero =>
    intro m t hmj hm hdb hpf hfp _
    have hmN : m = N := by omega
    subst hmN
    rw [pullLoop_succ]
    simp only [if_neg hne]
    have hT1db :
        (if 1 < m then { t with fetchedPages := t.fetchedPages ++ [m] } else t).db
          = t.db := by
      by_cases h1 : 1 < m <;> simp [h1]
    have hins :
        (insertPage
          (if 1 < m then { t with fetchedPages := t.fetchedPages ++ [m] } else t).db
          ((pr m).map convRow)).2 = 0 := by
      rw [hT1db, hdb]
      exact hN
    simp only [hins, if_pos rfl, if_true]
    constructor
    · show (_ + 1 : Nat) = m
      by_cases h1 : 1 < m <;> simp [h1, hpf] <;> omega
    · intro p hp
      by_cases h1 : 1 < m <;> simp [h1] at hp
      · rcases hp with hp | hp
        · exact hfp p hp
        · omega
      · exact hfp p hp
  | succ j ih =>
    intro m t hmj hm hdb hpf hfp hprev
    have hmlt : m < N := by omega
    have hinsm : 1 ≤ pageInsCount pr db0 m := hprev m le_rfl hmlt
    have hrows : pr m ≠ [] := by
      intro h
      rw [show pageInsCount pr db0 m = 0 from by
        simp [pageInsCount, h, insertPage]] at hinsm
      omega
    rw [pullLoop_succ]
    simp only [if_neg hrows]
    have hT1db :
        (if 1 < m then { t with fetchedPages := t.fetchedPages ++ [m] } else t).db
          = t.db := by
      by_cases h1 : 1 < m <;> simp [h1]
    have hins :
        (insertPage
          (if 1 < m then { t with fetchedPages := t.fetchedPages ++ [m] } else t).db
          ((pr m).map convRow)).2 = pageInsCount pr db0 m := by
      rw [hT1db, hdb]
      rfl
    rw [hins, if_neg (by omega)]
    have hCm : C - m = C - (m + 1) + 1 := by omega
    rw [hCm]
    have hm1 : m - 1 + 1 = m := by omega
    have hdb2 : dbThrough pr db0 (m - 1 + 1) =
        (insertPage (dbThrough pr db0 (m - 1)) ((pr (m - 1 + 1)).map convRow)).1 := rfl
    rw [hm1] at hdb2
    refine ih (m + 1) _ (by omega) (by omega) ?_ ?_ ?_
      (fun k hk1 hk2 => hprev k (by omega) hk2)
    · show (insertPage _ ((pr m).map convRow)).1 = dbThrough pr db0 (m + 1 - 1)
      rw [hT1db, hdb]
      simp only [Nat.add_sub_cancel]
      exact hdb2.symm
    · show (_ + 1 : Nat) = m + 1 - 1
      by_cases h1 : 1 < m <;> simp [h1, hpf] <;> omega
    · intro p hp
      by_cases h1 : 1 < m <;> simp [h1] at hp
      · rcases hp with hp | hp
        · exact le_trans (hfp p hp) (by omega)
        · omega
      · exact le_trans (hfp p hp) (by omega)

/-- Claim C5: if, within the page cap, pages `1 .. N-1` each contribute at
least one new url and page `N` parses to records whose urls are all
already stored (zero insertions for that page), the crawl reports
`pages_fetched = N` and never fetches page `N + 1`. -/
theorem crawl_stops_when_caught_up (pr : Nat → List ScrapedRow)
    (totalPages maxPages : Nat) (db0 : List AppRow) (N : Nat)
    (h1 : 1 ≤ N) (h2 : N ≤ min totalPages maxPages)
    (hprev : ∀ k, 1 ≤ k → k < N → 1 ≤ pageInsCount pr db0 k)
    (hne : pr N ≠ [])
    (hN : pageInsCount pr db0 N = 0) :
    (pull_data pr totalPages maxPages db0).pagesFetched = N ∧
    N + 1 ∉ (pull_data pr totalPages maxPages db0).fetchedPages := by
  have hC : 1 ≤ min totalPages maxPages := le_trans h1 h2
  have e : pull_data pr totalPages maxPages db0 =
      pullLoop pr (min totalPages maxPages - 1 + 1) 1 ⟨db0, 0, 0, 0, [1]⟩ := by
    rw [show min totalPages maxPages - 1 + 1 = min totalPages maxPages from by omega]
    rfl
  have h := pullLoop_caughtup pr db0 (min totalPages maxPages) N h2 hne hN
    (N - 1) 1 ⟨db0, 0, 0, 0, [1]⟩ (by omega) le_rfl rfl rfl
    (by intro p hp; simp at hp; omega) hprev
  rw [e]
  exact ⟨h.1, fun hmem => by have := h.2 _ hmem; omega⟩

/-- Witness for C5: a crawl over a site whose every page repeats one
already-stored record stops after page 1 and never fetches page 2. -/
theorem crawl_stops_when_caught_up_witness :
    (pull_data samplePages 3 3 sampleDb).pagesFetched = 1 ∧
    2 ∉ (pull_data samplePages 3 3 sampleDb).fetchedPages :=
  crawl_stops_when_caught_up samplePages 3 3 sampleDb 1 le_rfl (by norm_num)
    (fun k hk1 hk2 => absurd (lt_of_le_of_lt hk1 hk2) (lt_irrefl 1))
    (by simp [samplePages]) (by decide)

/-! ## C9: gre-prefixed fragments are structured data, never comments -/

/-- Unpack the generic-GRE fragment predicate into the head shape of the
lower-cased fragment and the three failed specific prefixes. -/
theorem greGenericFrag_spec (p : Str) (hg : greGenericFrag p = true) :
    ∃ t, lowerStr p = 'g' :: 'r' :: 'e' :: t ∧
      strStarts "gre v".data (lowerStr p) = false ∧
      strStarts "gre aw".data (lowerStr p) = false ∧
      strStarts "gre q".data (lowerStr p) = false := by
  simp only [greGenericFrag, Bool.and_eq_true, Bool.not_eq_true'] at hg
  obtain ⟨⟨⟨hgre, hgv⟩, hga⟩, hgq⟩ := hg
  simp only [strStarts, List.isPrefixOf_iff_prefix] at hgre
  obtain ⟨t, ht⟩ := hgre
  exact ⟨t, by rw [← ht]; rfl, hgv, hga, hgq⟩

set_option maxHeartbeats 2000000 in
/-- A fragment routed to the generic GRE branch is stored whole in the
generic field, flags the row as structured, and adds no comment part. -/
theorem detailStep_greGeneric (st : ScrapedRow × Bool × List Str) (p : Str)
    (hg : greGenericFrag p = true) :
    detailStep st p = ({ st.1 with gre := p }, true, st.2.2) := by
  obtain ⟨t, ht, hgv, hga, hgq⟩ := greGenericFrag_spec p hg
  have hgre : strStarts "gre".data (lowerStr p) = true := by
    rw [ht]; simp [strStarts, List.isPrefixOf]
  have hterm : termMatch (lowerStr p) = false := by
    rw [ht]; simp [termMatch, List.isPrefixOf]
  have hgpa : gpaMatch (lowerStr p) = false := by
    rw [ht]; simp [gpaMatch, List.isPrefixOf]
  have hint : lowerStr p ≠ "international".data := by rw [ht]; simp
  have hamer : lowerStr p ≠ "american".data := by rw [ht]; simp
  unfold detailStep
  dsimp only
  rw [if_neg (by simp [hterm]), if_neg hint, if_neg hamer,
    if_neg (by simp [hgpa]), if_neg (by simp [hgv]), if_neg (by simp [hga]),
    if_neg (by simp [hgq]), if_pos hgre]

set_option maxHeartbeats 2000000 in
/-- `detailStep` either leaves `comment_parts` alone or appends exactly the
processed fragment, and then only when the fragment is not gre-prefixed. -/
theorem detailStep_cps (st : ScrapedRow × Bool × List Str) (p : Str) :
    (detailStep st p).2.2 = st.2.2 ∨
      ((detailStep st p).2.2 = st.2.2 ++ [p] ∧
        strStarts "gre".data (lowerStr p) = false) := by
  unfold detailStep
  dsimp only
  simp only [apply_ite (fun x : ScrapedRow × Bool × List Str => x.2.2)]
  split_ifs with h1 h2 h3 h4 h5 h6 h7 h8 h9 h10 <;>
    try exact Or.inl rfl
  exact Or.inr ⟨rfl, by simpa using h8⟩

set_option maxHeartbeats 2000000 in
/-- `found_structured_data`, once set, stays set. -/
theorem detailStep_found (st : ScrapedRow × Bool × List Str) (p : Str)
    (h : st.2.1 = true) : (detailStep st p).2.1 = true := by
  unfold detailStep
  dsimp only
  simp only [apply_ite (fun x : ScrapedRow × Bool × List Str => x.2.1)]
  split_ifs <;> first | rfl | exact h

set_option maxHeartbeats 2000000 in
/-- The generic GRE field is only ever overwritten by a generic-GRE
fragment. -/
theorem detailStep_gre (st : ScrapedRow × Bool × List Str) (p : Str) :
    (detailStep st p).1.gre = st.1.gre ∨
      ((detailStep st p).1.gre = p ∧ greGenericFrag p = true) := by
  unfold detailStep
  dsimp only
  simp only [apply_ite (fun x : ScrapedRow × Bool × List Str => x.1.gre)]
  split_ifs with h1 h2 h3 h4 h5 h6 h7 h8 h9 h10 <;>
    try exact Or.inl rfl
  refine Or.inr ⟨rfl, ?_⟩
  have h5' : strStarts "gre v".data (lowerStr p) = false := by simpa using h5
  have h6' : strStarts "gre aw".data (lowerStr p) = false := by simpa using h6
  have h7' : strStarts "gre q".data (lowerStr p) = false := by simpa using h7
  simp [greGenericFrag, h8, h5', h6', h7']

set_option maxHeartbeats 2000000 in
/-- The fragment loop itself never touches the comments list (comments are
appended only after the loop). -/
theorem detailStep_comments (st : ScrapedRow × Bool × List Str) (p : Str) :
    (detailStep st p).1.comments = st.1.comments := by
  unfold detailStep
  dsimp only
  simp only [apply_ite (fun x : ScrapedRow × Bool × List Str => x.1.comments)]
  simp only [ite_self]

/-- Comments are untouched across the whole fragment loop. -/
theorem foldl_detailStep_comments :
    ∀ (parts : List Str) (st : ScrapedRow × Bool × List Str),
      (parts.foldl detailStep st).1.comments = st.1.comments := by
  intro parts
  induction parts with
  | nil => intro st; rfl
  | cons q qs ih =>
    intro st
    rw [List.foldl_cons, ih, detailStep_comments]

/-- `found_structured_data` is monotone across the fragment loop. -/
theorem foldl_detailStep_found :
    ∀ (parts : List Str) (st : ScrapedRow × Bool × List Str), st.2.1 = true →
      (parts.foldl detailStep st).2.1 = true := by
  intro parts
  induction parts with
  | nil => exact fun st h => h
  | cons q qs ih =>
    exact fun st h => by rw [List.foldl_cons]; exact ih _ (detailStep_found st q h)

/-- Across the fragment loop, `comment_parts` only grows by fragments that
are not gre-prefixed. -/
theorem foldl_detailStep_cps :
    ∀ (parts : List Str) (st : ScrapedRow × Bool × List Str), ∃ extra,
      (parts.foldl detailStep st).2.2 = st.2.2 ++ extra ∧
      ∀ q ∈ extra, strStarts "gre".data (lowerStr q) = false := by
  intro parts
  induction parts with
  | nil => intro st; exact ⟨[], by simp, by simp⟩
  | cons q qs ih =>
    intro st
    obtain ⟨extra, he, hall⟩ := ih (detailStep st q)
    rcases detailStep_cps st q with h | ⟨h, hq⟩
    · exact ⟨extra, by rw [List.foldl_cons, he, h], hall⟩
    · refine ⟨[q] ++ extra, ?_, ?_⟩
      · rw [List.foldl_cons, he, h, List.append_assoc]
      · intro x hx
        rcases List.mem_append.mp hx with hx | hx
        · simp only [List.mem_singleton] at hx
          subst hx
          exact hq
        · exact hall x hx

/-- Across the fragment loop, the generic GRE field keeps its value or
holds some generic-GRE fragment of the row. -/
theorem foldl_detailStep_gre :
    ∀ (parts : List Str) (st : ScrapedRow × Bool × List Str),
      (parts.foldl detailStep st).1.gre = st.1.gre ∨
      ∃ q ∈ parts, greGenericFrag q = true ∧
        (parts.foldl detailStep st).1.gre = q := by
  intro parts
  induction parts with
  | nil => intro st; exact Or.inl rfl
  | cons q qs ih =>
    intro st
    rcases ih (detailStep st q) with h | ⟨x, hx, hxg, hxe⟩
    · rcases detailStep_gre st q with h2 | ⟨h2, hqg⟩
      · exact Or.inl (by rw [List.foldl_cons, h, h2])
      · exact Or.inr ⟨q, by simp, hqg, by rw [List.foldl_cons, h, h2]⟩
    · exact Or.inr ⟨x, by simp [hx], hxg, by rw [List.foldl_cons]; exact hxe⟩

/-- When some fragment of the row is generic-GRE, the loop ends with
`found_structured_data` set and the generic GRE field holding such a
fragment. -/
theorem foldl_detailStep_hits_gre :
    ∀ (parts : List Str) (st : ScrapedRow × Bool × List Str),
      (∃ p ∈ parts, greGenericFrag p = true) →
      (parts.foldl detailStep st).2.1 = true ∧
      ∃ q ∈ parts, greGenericFrag q = true ∧
        (parts.foldl detailStep st).1.gre = q := by
  intro parts
  induction parts with
  | nil => intro st h; simp at h
  | cons a tl ih =>
    intro st h
    obtain ⟨p, hp, hpg⟩ := h
    by_cases ha : greGenericFrag a = true
    · rw [List.foldl_cons, detailStep_greGeneric st a ha]
      constructor
      · exact foldl_detailStep_found tl _ rfl
      · rcases foldl_detailStep_gre tl ({ st.1 with gre := a }, true, st.2.2)
          with h2 | ⟨x, hx, hxg, hxe⟩
        · exact ⟨a, by simp, ha, by rw [h2]⟩
        · exact ⟨x, by simp [hx], hxg, hxe⟩
    · have hp' : p ∈ tl := by
        rcases List.mem_cons.mp hp with h' | h'
        · exact absurd (h' ▸ hpg) ha
        · exact h'
      obtain ⟨h1, q, hq, hqg, hqe⟩ := ih (detailStep st a) ⟨p, hp', hpg⟩
      exact ⟨by rw [List.foldl_cons]; exact h1,
        q, by simp [hq], hqg, by rw [List.foldl_cons]; exact hqe⟩

/-- The joined comment entry of a detail row can never equal a fragment
whose lower-cased text starts with `gre`, since every collected comment
part lacks that prefix and joining inserts spaces. -/
theorem joinSpace_ne_gre_frag (p : Str) (t : Str)
    (ht : lowerStr p = 'g' :: 'r' :: 'e' :: t) :
    ∀ l, (∀ q ∈ l, strStarts "gre".data (lowerStr q) = false) → l ≠ [] →
      joinSpace l ≠ p := by
  have hsp : Char.toLower ' ' = ' ' := rfl
  intro l hall hne hcontra
  match l, hne with
  | [c], _ =>
    have hc : c = p := hcontra
    have hq := hall c (by simp)
    rw [hc, ht] at hq
    simp [strStarts, List.isPrefixOf] at hq
  | c :: d :: rest, _ =>
    have hl : lowerStr c ++ ' ' :: lowerStr (joinSpace (d :: rest))
        = 'g' :: 'r' :: 'e' :: t := by
      have h0 : lowerStr (joinSpace (c :: d :: rest)) = lowerStr p := by
        rw [hcontra]
      rw [ht] at h0
      rw [← h0]
      show _ = lowerStr (c ++ [' '] ++ joinSpace (d :: rest))
      simp [lowerStr, hsp]
    match c with
    | [] =>
      simp only [lowerStr, List.map_nil, List.nil_append] at hl
      injection hl with h1 _
      exact absurd h1 (by decide)
    | [a] =>
      simp only [lowerStr, List.map_cons, List.map_nil, List.cons_append,
        List.nil_append] at hl
      injection hl with h1 h2
      injection h2 with h2 _
      exact absurd h2 (by decide)
    | [a, b] =>
      simp only [lowerStr, List.map_cons, List.map_nil, List.cons_append,
        List.nil_append] at hl
      injection hl with h1 h2
      injection h2 with h2 h3
      injection h3 with h3 _
      exact absurd h3 (by decide)
    | a :: b :: e2 :: cs =>
      simp only [lowerStr, List.map_cons, List.cons_append] at hl
      injection hl with h1 h2
      injection h2 with h2 h3
      injection h3 with h3 _
      have hq := hall (a :: b :: e2 :: cs) (by simp)
      have hcl : strStarts "gre".data (lowerStr (a :: b :: e2 :: cs)) = true := by
        simp [strStarts, List.isPrefixOf, lowerStr, h1, h2, h3]
      rw [hq] at hcl
      exact absurd hcl (by decide)

/-- Claim C9: every detail-row fragment whose lower-cased text begins with
`gre` but not with `gre v`, `gre aw` or `gre q` (e.g. `"Great
experience"`) is treated as structured data: the generic GRE field ends up
holding such a fragment (the fragment itself when it is the whole row),
and the fragment never enters the comments list. -/
theorem gre_prefix_fragment_never_comment (text : Str) (r : ScrapedRow)
    (p : Str) (hp : p ∈ detailParts text) (hg : greGenericFrag p = true)
    (hnc : p ∉ r.comments) :
    (∃ q ∈ detailParts text, greGenericFrag q = true ∧
        (parse_detail_row text r).gre = q) ∧
    p ∉ (parse_detail_row text r).comments ∧
    (detailParts text = [p] → (parse_detail_row text r).gre = p) := by
  have hpne : p ≠ [] := by
    intro h
    rw [h] at hg
    exact absurd hg (by decide)
  have htext : text ≠ [] := by
    intro h
    rw [h] at hp
    have : detailParts [] = [([] : Str)] := rfl
    rw [this] at hp
    simp at hp
    exact hpne hp
  obtain ⟨hfound, q, hqmem, hqg, hqgre⟩ :=
    foldl_detailStep_hits_gre (detailParts text) (r, false, []) ⟨p, hp, hg⟩
  obtain ⟨extra, hcps, hall⟩ :=
    foldl_detailStep_cps (detailParts text) (r, false, [])
  have hcom :
      ((detailParts text).foldl detailStep (r, false, [])).1.comments
        = r.comments :=
    foldl_detailStep_comments (detailParts text) (r, false, [])
  have hpd : parse_detail_row text r =
      (if ((detailParts text).foldl detailStep (r, false, [])).2.2 ≠ [] then
        { ((detailParts text).foldl detailStep (r, false, [])).1 with
          comments :=
            ((detailParts text).foldl detailStep (r, false, [])).1.comments ++
              [joinSpace ((detailParts text).foldl detailStep (r, false, [])).2.2] }
      else ((detailParts text).foldl detailStep (r, false, [])).1) := by
    unfold parse_detail_row
    rw [if_neg htext]
    simp only [hfound, not_true, if_false, ite_false]
  have hgrefield : (parse_detail_row text r).gre =
      ((detailParts text).foldl detailStep (r, false, [])).1.gre := by
    rw [hpd]
    split <;> rfl
  refine ⟨⟨q, hqmem, hqg, by rw [hgrefield]; exact hqgre⟩, ?_, ?_⟩
  · rw [hpd]
    obtain ⟨t, ht, -, -, -⟩ := greGenericFrag_spec p hg
    split
    · next hne2 =>
      rw [hcom]
      simp only [List.mem_append, List.mem_singleton]
      rintro (h | h)
      · exact hnc h
      · rw [hcps] at hne2 h
        simp only [List.nil_append] at hne2 h
        exact joinSpace_ne_gre_frag p t ht extra hall hne2 h.symm
    · exact fun h => hnc (hcom ▸ h)
  · intro he
    have hst : (detailParts text).foldl detailStep (r, false, [])
        = ({ r with gre := p }, true, []) := by
      rw [he]
      rw [show ([p].foldl detailStep ((r : ScrapedRow), false, ([] : List Str)))
          = detailStep (r, false, []) p from rfl]
      exact detailStep_greGeneric (r, false, []) p hg
    rw [hgrefield, hst]

/-- Witness for C9: the detail row `"Great experience"` — an ordinary
comment-looking fragment whose lower-cased text happens to start with
`gre` — lands whole in the generic GRE field and never in the comments. -/
theorem gre_prefix_fragment_never_comment_witness :
    (parse_detail_row "Great experience".data sampleScraped).gre
        = "Great experience".data ∧
    "Great experience".data ∉
      (parse_detail_row "Great experience".data sampleScraped).comments := by
  have h := gre_prefix_fragment_never_comment "Great experience".data
    sampleScraped "Great experience".data (by decide) (by decide) (by decide)
  exact ⟨h.2.2 (by decide), h.2.1⟩

end GradCafe
